import Mathlib

/-!
Verification of the weekly-meetings digest script
(`src/weekly_meetings_to_slack.py`) against its natural-language
specification.

The embedding models:
* timezone-aware Python `datetime` values as wall-clock fields plus the
  UTC offset their `tzinfo` reports (`PyDT`); comparison of aware
  datetimes compares absolute instants, `timedelta` arithmetic and
  `strftime` act on the wall clock;
* absolute instants as microseconds since the Unix epoch (`Int`) —
  `datetime.fromtimestamp(x, tz)` and `astimezone(tz)` are
  instant-preserving, so `parse_hubspot_datetime` is modelled as a map
  from raw values to instants; `fromtimestamp`'s failure on instants
  outside Python's year 1..9999 range is modelled by `fromtimestampOK`,
  with the caught error falling through to the ISO parse as in the
  source;
* Python `int(...)` applied to strings (sign, surrounding whitespace,
  underscores between digits) and the extended-format subset of
  `datetime.fromisoformat` the script's inputs use
  (`YYYY-MM-DD[{T,space}HH[:MM[:SS[.ffffff]]][+-HH:MM]]`, validated);
* the HubSpot search call as an oracle giving, per request body, the
  full matching result sequence, of which one page (the `limit: 100`
  the script sends) is returned — the script reads only `results` and
  never requests a further page.

Floating-point rounding in `num / 1000` is not modelled: for the
integer magnitudes at issue the division is exact.
-/

namespace WMB

/-- Model of a timezone-aware Python `datetime`: wall-clock day
(`days` since 1970-01-01), wall-clock microsecond of that day, and the
UTC offset in minutes that its `tzinfo` reports at this wall time.
Aware-datetime comparison compares `instantUs`; `timedelta` arithmetic
and `replace`/`strftime` act on the wall-clock fields. -/
structure PyDT where
  days : Int
  usec : Int
  offMin : Int
deriving Repr, DecidableEq

/-- The absolute instant of an aware datetime, in microseconds since
the Unix epoch. -/
def PyDT.instantUs (dt : PyDT) : Int :=
  dt.days * 86400000000 + dt.usec - dt.offMin * 60000000

/-- `date.weekday()`: Monday = 0.  1970-01-01 (epoch day 0) was a
Thursday, hence weekday 3. -/
def pyWeekday (days : Int) : Int :=
  (days + 3).emod 7

/-- `week_window` (source lines 56-59): wall-clock truncation of `now`
to midnight of the current week's Monday, plus seven days.
`now - timedelta(days=now.weekday())` shifts the wall-clock day and
keeps the `tzinfo`; `.replace(hour=0, minute=0, second=0,
microsecond=0)` zeroes the wall time. -/
def week_window (now : PyDT) : PyDT × PyDT :=
  let start : PyDT := ⟨now.days - pyWeekday now.days, 0, now.offMin⟩
  let stop : PyDT := ⟨start.days + 7, 0, start.offMin⟩
  (start, stop)

/-- Characters Python's `int(str)` and `str.strip()` treat as
whitespace (ASCII subset). -/
def isPySpace (c : Char) : Bool :=
  c == ' ' || c == '\t' || c == '\n' || c == '\r' || c == '\x0b' || c == '\x0c'

/-- A run of decimal digits in a Python integer literal: nonempty, and
an underscore may appear only between two digits. -/
def digRun : List Char → Bool
  | [] => false
  | [c] => c.isDigit
  | c :: d :: rest =>
      c.isDigit && (if d = '_' then digRun rest else digRun (d :: rest))

/-- Numeric value of a digit run, skipping underscores. -/
def digitsToNat (l : List Char) : Nat :=
  l.foldl (fun a c => if c == '_' then a else a * 10 + (c.toNat - 48)) 0

/-- `str.strip()` at the character-list level: drop leading and
trailing whitespace. -/
def pyStripList (l : List Char) : List Char :=
  ((l.dropWhile isPySpace).reverse.dropWhile isPySpace).reverse

/-- The sign-and-digits grammar of a stripped Python integer
literal. -/
def pyIntCore (l : List Char) : Option Int :=
  if l.head? = some '+' then
    (if digRun l.tail then some (digitsToNat l.tail : Int) else Option.none)
  else if l.head? = some '-' then
    (if digRun l.tail then some (-(digitsToNat l.tail : Int)) else Option.none)
  else if digRun l then some (digitsToNat l : Int) else Option.none

/-- Model of Python `int(s)` on a string: optional surrounding
whitespace, optional single sign, digits (underscores allowed between
digits); `Option.none` models the `ValueError`. -/
def pyIntOfString (s : String) : Option Int :=
  pyIntCore (pyStripList s.toList)

/-- A raw HubSpot property value as the script sees it: absent/null,
a JSON integer, or a string. -/
inductive RawValue where
  | null
  | int (n : Int)
  | str (s : String)
deriving Repr, DecidableEq

/-- Python `int(value)` over a raw value; `TypeError` on `None` is
modelled as failure. -/
def pyInt : RawValue → Option Int
  | RawValue.null => Option.none
  | RawValue.int n => some n
  | RawValue.str s => pyIntOfString s

/-- Python `str(value)`. -/
def pyStr : RawValue → String
  | RawValue.null => "None"
  | RawValue.int n => toString n
  | RawValue.str s => s

/-- Python truthiness of a raw value. -/
def truthy : RawValue → Bool
  | RawValue.null => false
  | RawValue.int n => n != 0
  | RawValue.str s => s != ""

/-- Proleptic-Gregorian civil date of an epoch-day count
(Howard Hinnant's `civil_from_days`; `Int.ediv` is floor division for
the positive divisors used here). -/
def daysToCivil (z0 : Int) : Int × Int × Int :=
  let z := z0 + 719468
  let era := z.ediv 146097
  let doe := z.emod 146097
  let yoe := (doe - doe.ediv 1460 + doe.ediv 36524 - doe.ediv 146096).ediv 365
  let y := yoe + era * 400
  let doy := doe - (365 * yoe + yoe.ediv 4 - yoe.ediv 100)
  let mp := (5 * doy + 2).ediv 153
  let d := doy - (153 * mp + 2).ediv 5 + 1
  let m := mp + (if mp < 10 then 3 else -9)
  (y + (if m ≤ 2 then 1 else 0), m, d)

/-- Epoch-day count of a civil date (`days_from_civil`). -/
def civilToDays (y0 m d : Int) : Int :=
  let y := y0 - (if m ≤ 2 then 1 else 0)
  let era := y.ediv 400
  let yoe := y - era * 400
  let doy := (153 * (m + (if m > 2 then -3 else 9)) + 2).ediv 5 + d - 1
  let doe := yoe * 365 + yoe.ediv 4 - yoe.ediv 100 + doy
  era * 146097 + doe - 719468

/-- Gregorian leap-year test. -/
def isLeap (y : Int) : Bool :=
  y.emod 4 == 0 && (y.emod 100 != 0 || y.emod 400 == 0)

/-- Length of a month. -/
def daysInMonth (y m : Int) : Int :=
  if m == 2 then (if isLeap y then 29 else 28)
  else if m == 4 || m == 6 || m == 9 || m == 11 then 30
  else 31

/-- Result of `datetime.fromisoformat`: a civil datetime plus its
parsed UTC offset in minutes (`Option.none` = offset-naive). -/
structure IsoDT where
  year : Int
  month : Int
  day : Int
  hour : Int
  minute : Int
  second : Int
  usec : Int
  offMin : Option Int
deriving Repr, DecidableEq

/-- Numeric value of an ASCII digit character. -/
def digVal (c : Char) : Int :=
  (c.toNat : Int) - 48

/-- Parse exactly two digits. -/
def parse2 : List Char → Option (Int × List Char)
  | a :: b :: rest =>
      if a.isDigit && b.isDigit then some (digVal a * 10 + digVal b, rest) else Option.none
  | _ => Option.none

/-- Parse exactly four digits. -/
def parse4 (l : List Char) : Option (Int × List Char) := do
  let (hi, r1) ← parse2 l
  let (lo, r2) ← parse2 r1
  pure (hi * 100 + lo, r2)

/-- Parse a fractional-seconds field of one to six digits, yielding
microseconds. -/
def parseFrac (l : List Char) : Option (Int × List Char) :=
  let ds := l.takeWhile Char.isDigit
  if ds.length == 0 || ds.length > 6 then Option.none
  else some ((digitsToNat ds * 10 ^ (6 - ds.length) : Nat), l.drop ds.length)

/-- Parse `HH[:MM[:SS[.ffffff]]]`, returning hour, minute, second,
microsecond and the remaining input. -/
def parseTime (l : List Char) : Option (Int × Int × Int × Int × List Char) := do
  let (h, r1) ← parse2 l
  match r1 with
  | ':' :: r2 => do
    let (mi, r3) ← parse2 r2
    match r3 with
    | ':' :: r4 => do
      let (s, r5) ← parse2 r4
      match r5 with
      | '.' :: r6 => do
        let (f, r7) ← parseFrac r6
        pure (h, mi, s, f, r7)
      | ',' :: r6 => do
        let (f, r7) ← parseFrac r6
        pure (h, mi, s, f, r7)
      | _ => pure (h, mi, s, 0, r5)
    | _ => pure (h, mi, 0, 0, r3)
  | _ => pure (h, 0, 0, 0, r1)

/-- Parse the optional trailing UTC-offset designator `±HH:MM`;
`some Option.none` means "no offset present, input exhausted". -/
def parseOffsetTail : List Char → Option (Option Int)
  | [] => some Option.none
  | '+' :: r1 => do
    let (oh, r2) ← parse2 r1
    match r2 with
    | ':' :: r3 => do
      let (om, r4) ← parse2 r3
      if oh ≤ 23 ∧ om ≤ 59 ∧ r4 = [] then pure (some (oh * 60 + om)) else Option.none
    | _ => Option.none
  | '-' :: r1 => do
    let (oh, r2) ← parse2 r1
    match r2 with
    | ':' :: r3 => do
      let (om, r4) ← parse2 r3
      if oh ≤ 23 ∧ om ≤ 59 ∧ r4 = [] then pure (some (-(oh * 60 + om))) else Option.none
    | _ => Option.none
  | _ => Option.none

/-- Model of `datetime.fromisoformat` on the extended format
`YYYY-MM-DD[{T,space}HH[:MM[:SS[.ffffff]]][±HH:MM]]`, with the range
validation CPython performs (year 1-9999, real calendar day, hour ≤ 23,
minute/second ≤ 59, offset within a day). -/
def fromisoformat (s : String) : Option IsoDT := do
  let (y, r1) ← parse4 s.toList
  match r1 with
  | '-' :: r2 => do
    let (mo, r3) ← parse2 r2
    match r3 with
    | '-' :: r4 => do
      let (d, r5) ← parse2 r4
      if 1 ≤ y ∧ y ≤ 9999 ∧ 1 ≤ mo ∧ mo ≤ 12 ∧ 1 ≤ d ∧ d ≤ daysInMonth y mo then
        match r5 with
        | [] => pure ⟨y, mo, d, 0, 0, 0, 0, Option.none⟩
        | sep :: r6 =>
          if sep = 'T' ∨ sep = ' ' then do
            let (h, mi, sec, f, r7) ← parseTime r6
            if h ≤ 23 ∧ mi ≤ 59 ∧ sec ≤ 59 then do
              let off ← parseOffsetTail r7
              pure ⟨y, mo, d, h, mi, sec, f, off⟩
            else Option.none
          else Option.none
      else Option.none
    | _ => Option.none
  | _ => Option.none

/-- Absolute instant (µs since epoch) denoted by a parsed ISO
datetime; an offset-naive value is interpreted as UTC, exactly as the
script's `dt.replace(tzinfo=ZoneInfo("UTC"))` does.  The subsequent
`astimezone(TIMEZONE)` does not change the instant. -/
def IsoDT.instantUs (t : IsoDT) : Int :=
  civilToDays t.year t.month t.day * 86400000000
    + (t.hour * 3600 + t.minute * 60 + t.second) * 1000000 + t.usec
    - t.offMin.getD 0 * 60000000

/-- Replacement of a single character under
`str.replace("Z", "+00:00")`. -/
def charZ (c : Char) : List Char :=
  if c = 'Z' then "+00:00".toList else [c]

/-- Model of `str(value).replace("Z", "+00:00")` (every `Z` is
replaced, not only a trailing one). -/
def replaceZ (s : String) : String :=
  String.mk (s.toList.foldr (fun c acc => charZ c ++ acc) [])

/-- Lines 74-75: a value below the threshold is seconds and scaled to
milliseconds, otherwise it is already milliseconds. -/
def msOf (num : Int) : Int :=
  if num < 10000000000 then num * 1000 else num

/-- The condition under which `datetime.fromtimestamp(ms / 1000,
tz=TIMEZONE)` succeeds: the resulting datetime's year lies in Python's
`MINYEAR..MAXYEAR` (0001-01-01 through 9999-12-31 23:59:59.999999);
outside it the call raises (`ValueError`, or `OverflowError` from the
final offset addition).  The model places the boundary at the UTC
instant; the true cutoff differs by the Berlin UTC offset — at most
about one hour — only inside the two extreme year-1 / year-9999 edge
windows, which no theorem below approaches. -/
def fromtimestampOK (ms : Int) : Prop :=
  civilToDays 1 1 1 * 86400000 ≤ ms ∧
    ms ≤ civilToDays 9999 12 31 * 86400000 + 86399999

instance (ms : Int) : Decidable (fromtimestampOK ms) := by
  unfold fromtimestampOK
  infer_instance

/-- `parse_hubspot_datetime` (source lines 61-85), modelled at the
instant level: the result is the absolute instant (µs since epoch) of
the Berlin-local datetime the script builds; `Option.none` models the
raised exception.  `datetime.fromtimestamp(num / 1000, tz=TIMEZONE)`
denotes the instant `num` milliseconds after the epoch when it is in
range; an out-of-range `ValueError` is caught by the
`except (ValueError, TypeError)` of line 77 and control falls through
to the ISO parse of the same string, exactly as modelled (the uncaught
`OverflowError` slice near year 10000 is observably identical, since
the ISO parse of a string that `int()` accepted always fails). -/
def parse_hubspot_datetime (value : RawValue) : Option Int :=
  if value = RawValue.null ∨ value = RawValue.str "" then Option.none
  else
    match pyInt value with
    | some num =>
      let ms := msOf num
      if fromtimestampOK ms then some (ms * 1000)
      else (fromisoformat (replaceZ (pyStr value))).map IsoDT.instantUs
    | Option.none =>
      (fromisoformat (replaceZ (pyStr value))).map IsoDT.instantUs

/-- The decidable "ISO-8601 shape" predicate induced by the script's
parsing path: the value (after its `Z` replacement) is accepted by
`fromisoformat`. -/
def isIsoShape (s : String) : Bool :=
  (fromisoformat (replaceZ s)).isSome

/-- A raw meeting record as the script reads it: its `id` plus the
three properties the script accesses (`props.get` returning `None` for
an absent key is `RawValue.null`). -/
structure RawMeeting where
  id : String
  hs_meeting_start_time : RawValue
  hubspot_owner_id : RawValue
  hs_meeting_title : RawValue
deriving Repr, DecidableEq

/-- `props.get("hs_meeting_title") or "Meeting"`. -/
def pyTitle (v : RawValue) : String :=
  if truthy v then pyStr v else "Meeting"

/-- One surviving candidate, as appended at source line 252 (the extra
`start_val` component is used only by the debug branch and omitted). -/
structure Candidate where
  id : String
  owner : String
  dt : PyDT
  title : String
deriving Repr, DecidableEq

/-- The per-record body of main's local filtering loop (source lines
232-252).  `toBerlin` stands for the conversion from an absolute
instant to the Berlin-local aware datetime that
`parse_hubspot_datetime` actually returns; theorems assume only that
it is instant-preserving, which `zoneinfo` conversion is. -/
def acceptMeeting (toBerlin : Int → PyDT) (ws we now : PyDT) (m : RawMeeting) :
    Option Candidate :=
  if truthy m.hs_meeting_start_time && truthy m.hubspot_owner_id then
    match parse_hubspot_datetime m.hs_meeting_start_time with
    | Option.none => Option.none
    | some t =>
      let dt := toBerlin t
      if (ws.instantUs ≤ dt.instantUs ∧ dt.instantUs < we.instantUs)
          ∧ ¬ dt.instantUs < now.instantUs then
        some ⟨m.id, pyStr m.hubspot_owner_id, dt, pyTitle m.hs_meeting_title⟩
      else Option.none
  else Option.none

/-- Main's local filtering loop over the fetched raw meetings. -/
def localFilter (toBerlin : Int → PyDT) (ws we now : PyDT)
    (meetings : List RawMeeting) : List Candidate :=
  meetings.filterMap (acceptMeeting toBerlin ws we now)

/-- Contact ids of one meeting after the association loop (source
lines 259-266): a lookup failure (`Option.none`, the caught exception)
is recorded as the empty list, exactly like `cids = []`. -/
def cidsOf (assoc : String → Option (List String)) (mid : String) : List String :=
  (assoc mid).getD []

/-- Association-list lookup modelling a Python dict read (first
binding wins; dicts never hold a key twice). -/
def alookup {α : Type} : List (String × α) → String → Option α
  | [], _ => Option.none
  | (k, v) :: rest, key => if k = key then some v else alookup rest key

/-- One entry of an owner's group: `(dt, contact_name, title)`. -/
def Entry : Type := PyDT × String × String

instance : DecidableEq Entry := by
  unfold Entry
  infer_instance

/-- `grouped[owner].append(e)` on the insertion-ordered dict model:
extend the owner's list, or create it at the end (`defaultdict`). -/
def appendGroup (g : List (String × List Entry)) (owner : String) (e : Entry) :
    List (String × List Entry) :=
  match g with
  | [] => [(owner, [e])]
  | (o, es) :: rest =>
      if o = owner then (o, es ++ [e]) :: rest else (o, es) :: appendGroup rest owner e

/-- One iteration of the grouping loop of main (source lines
273-279): a candidate with no contact ids is skipped; otherwise its
first contact id is resolved through the contact directory, falling
back to the placeholder, and the entry is appended to its owner's
group. -/
def groupStep (assoc : String → Option (List String))
    (contacts : List (String × String)) (g : List (String × List Entry))
    (c : Candidate) : List (String × List Entry) :=
  match cidsOf assoc c.id with
  | [] => g
  | cid :: _ =>
    let name := (alookup contacts cid).getD ("Contact " ++ cid)
    appendGroup g c.owner (c.dt, name, c.title)

/-- The grouping loop of main over all candidates. -/
def buildGrouped (assoc : String → Option (List String))
    (contacts : List (String × String)) (cands : List Candidate) :
    List (String × List Entry) :=
  cands.foldl (groupStep assoc contacts) []

/-- The entry sequence of one owner in a grouped mapping
(`grouped[owner]`, empty when absent). -/
def entriesOf (g : List (String × List Entry)) (o : String) : List Entry :=
  (alookup g o).getD []

/-- Total number of meeting entries across all owner groups. -/
def totalEntries (g : List (String × List Entry)) : Nat :=
  (g.map fun p => p.2.length).sum

/-- The per-owner in-place sort of main (source lines 281-282),
ascending by start instant.  Python's `list.sort` is a stable sort; a
stable sort by a total preorder is unique, so `insertionSort` denotes
it exactly. -/
def sortGrouped (g : List (String × List Entry)) : List (String × List Entry) :=
  g.map fun p =>
    (p.1, List.insertionSort (fun e1 e2 => e1.1.instantUs ≤ e2.1.instantUs) p.2)

/-- The sort key `grouped[o][0][0]` of source line 203 at the instant
level (the groups are never empty when it is evaluated; `0` is a
don't-care default). -/
def groupKey (g : List (String × List Entry)) (o : String) : Int :=
  match alookup g o with
  | some (e :: _) => e.1.instantUs
  | _ => 0

/-- `sorted(grouped.keys(), key=lambda o: grouped[o][0][0])` (source
line 203); Python's `sorted` is stable, hence equal to
`insertionSort`. -/
def ownersSorted (g : List (String × List Entry)) : List String :=
  List.insertionSort (fun o1 o2 => groupKey g o1 ≤ groupKey g o2) (g.map Prod.fst)

/-- The static owner-id → Slack-handle table (source lines 21-42). -/
def OWNER_TO_SLACK : List (String × String) :=
  [("29202437", "<@U08N63C58BC>"), ("76287207", "<@U085X3R20P7>"),
   ("1331795909", "<@U07G8B29CN5>"), ("303586931", "<@U07K1NXC4TF>"),
   ("76160549", "<@U07M9L6U4SX>"), ("76822495", "<@U07FY6MUDEG>"),
   ("380546521", "<@U083BBL20BF>"), ("1859268659", "<@U07J82VKM9Q>"),
   ("982419171", "<@U07K4G7710B>"), ("78899599", "<@U08KDHHJ7S6>"),
   ("29454051", "<@U08TTADV078>"), ("1844730787", "<@U07JAJBKDLL>"),
   ("29545650", "<@U091QQP4W85>"), ("29700526", "<@U095R45NW8H>"),
   ("30562252", "<@U09LCQSB081>"), ("30767909", "<@U09PKAGQUF8>"),
   ("30840582", "<@U09QW1PVCCS>"), ("30287832", "<@U07M9P6JZ5G>"),
   ("31172664", "<@U0A0P2V70MC>"), ("30740680", "<@U09LSSAB3LH>")]

/-- The German weekday names (source lines 44-47), indexed by
`weekday()`. -/
def weekdayDE (w : Int) : String :=
  if w = 0 then "Montag" else if w = 1 then "Dienstag" else if w = 2 then "Mittwoch"
  else if w = 3 then "Donnerstag" else if w = 4 then "Freitag"
  else if w = 5 then "Samstag" else "Sonntag"

/-- Two-digit zero padding (`%d`, `%m`, `%H`, `%M`). -/
def pad2 (n : Int) : String :=
  (if n < 10 then "0" else "") ++ toString n

/-- Four-digit zero padding (`%Y`). -/
def pad4 (n : Int) : String :=
  (if n < 10 then "000" else if n < 100 then "00" else if n < 1000 then "0" else "")
    ++ toString n

/-- `dt.strftime("%d.%m.%Y")` on the wall-clock date. -/
def fmtDMY (dt : PyDT) : String :=
  match daysToCivil dt.days with
  | (y, m, d) => pad2 d ++ "." ++ pad2 m ++ "." ++ pad4 y

/-- `dt.strftime("%H:%M")` on the wall-clock time. -/
def fmtHM (dt : PyDT) : String :=
  pad2 (dt.usec.ediv 3600000000) ++ ":" ++ pad2 ((dt.usec.ediv 60000000).emod 60)

/-- `week_end - timedelta(seconds=1)`: wall-clock subtraction of one
second. -/
def subOneSecond (dt : PyDT) : PyDT :=
  if dt.usec ≥ 1000000 then ⟨dt.days, dt.usec - 1000000, dt.offMin⟩
  else ⟨dt.days - 1, dt.usec + 86399000000, dt.offMin⟩

/-- `"\n".join`. -/
def joinNL : List String → String
  | [] => ""
  | [s] => s
  | s :: rest => s ++ "\n" ++ joinNL rest

/-- The fixed closing reminder sentence (source lines 214-216). -/
def closingLine : String :=
  "Solltet ihr noch offene Themen bei einem Kunden haben, die geklärt werden sollen, dann gebt bitte frühzeitig Bescheid."

/-- The lines one owner's group contributes to the digest (source
lines 205-212): the owner headline with the Slack handle (falling back
to a literal rendering of the raw id), one bullet per meeting, and a
blank separator line. -/
def ownerBlock (grouped : List (String × List Entry)) (owner : String) : List String :=
  let slack := (alookup OWNER_TO_SLACK owner).getD ("<ID " ++ owner ++ ">")
  let meetingLines := ((alookup grouped owner).getD []).map fun e =>
    "• " ++ e.2.1 ++ " | " ++ e.2.2 ++ " | " ++ weekdayDE (pyWeekday e.1.days)
      ++ ", " ++ fmtDMY e.1 ++ ", " ++ fmtHM e.1
  ("*" ++ slack ++ "* hat diese Woche folgende anstehenden Meetings:")
    :: meetingLines ++ [""]

/-- `build_message` (source lines 186-217).  `grouped` is the
insertion-ordered owner → entries mapping after main's per-group
sort. -/
def build_message (grouped : List (String × List Entry)) (week_start week_end : PyDT) :
    String :=
  let ws := fmtDMY week_start
  let we := fmtDMY (subOneSecond week_end)
  if grouped.isEmpty then
    "📅 *Wochenübersicht – Meetings*\n" ++ "🗓️ Zeitraum: " ++ ws ++ " - " ++ we
      ++ "\n\n" ++ "✅ Diese Woche stehen keine anstehenden Meetings an."
  else
    let header := ["📅 *Wochenübersicht – Meetings*", "🗓️ Zeitraum: " ++ ws ++ " - " ++ we ++ "\n"]
    let lines := (ownersSorted grouped).foldl
      (fun acc owner => acc ++ ownerBlock grouped owner) header
    joinNL (lines ++ [closingLine])

/-- Contact properties as returned by the batch read (`None` for a
null or absent property). -/
structure ContactProps where
  firstname : Option String
  lastname : Option String
  email : Option String
deriving Repr, DecidableEq

/-- `filter(None, [...])`: keep only truthy (nonempty, non-`None`)
strings. -/
def pyFilterTruthy (l : List (Option String)) : List String :=
  l.filterMap fun o =>
    match o with
    | some s => if s = "" then Option.none else some s
    | Option.none => Option.none

/-- `" ".join`. -/
def joinSpace : List String → String
  | [] => ""
  | [s] => s
  | s :: rest => s ++ " " ++ joinSpace rest

/-- Python `str.strip()` (ASCII whitespace). -/
def pyStrip (s : String) : String :=
  String.mk (pyStripList s.toList)

/-- The display-name computation of `batch_read_contacts` (source
lines 179-180): `" ".join(filter(None, [firstname, lastname])).strip()
or email or f"Contact {id}"`. -/
def displayName (p : ContactProps) (cid : String) : String :=
  let name := pyStrip (joinSpace (pyFilterTruthy [p.firstname, p.lastname]))
  if name ≠ "" then name
  else
    match p.email with
    | some e => if e ≠ "" then e else "Contact " ++ cid
    | Option.none => "Contact " ++ cid

/-- The fallback chain exactly as the specification words it:
`firstname + " " + lastname` trimmed, falling back to the email when
that is empty, falling back to `"Contact " + contactId`. -/
def specDisplayName (p : ContactProps) (cid : String) : String :=
  let name := pyStrip (p.firstname.getD "" ++ " " ++ p.lastname.getD "")
  if name ≠ "" then name
  else
    match p.email with
    | some e => if e ≠ "" then e else "Contact " ++ cid
    | Option.none => "Contact " ++ cid

/-- `batch_read_contacts` (source lines 161-181) on a list of response
records, building the id → displayName directory. -/
def batch_read_contacts (resp : List (String × ContactProps)) : List (String × String) :=
  resp.map fun p => (p.1, displayName p.2 p.1)

/-- The state of the CRM search endpoint: the full matching result
sequence for each of the three request bodies the script can send
(ms `BETWEEN`, ISO `BETWEEN`, unfiltered descending).  A response
carries at most one page of `limit` (here 100) results; the script
reads only `results` and never sends a paging cursor. -/
structure CRM where
  resultsMs : List RawMeeting
  resultsIso : List RawMeeting
  resultsAny : List RawMeeting
deriving Repr, DecidableEq

/-- `meetings_search` (source lines 90-94): a single POST whose
response holds the first page — at most the requested `limit: 100`
records — of the full matching sequence.  No paging token is read or
sent. -/
def meetings_search (full : List RawMeeting) : List RawMeeting :=
  full.take 100

/-- `fetch_meetings_candidates` (source lines 96-152): one search per
strategy, cascading ms-filter → ISO-filter → unfiltered, each taken
as a single page. -/
def fetch_meetings_candidates (crm : CRM) : List RawMeeting × String :=
  let res := meetings_search crm.resultsMs
  if res.isEmpty = false then (res, "search_between_ms")
  else
    let res2 := meetings_search crm.resultsIso
    if res2.isEmpty = false then (res2, "search_between_iso")
    else (meetings_search crm.resultsAny, "search_unfiltered_fallback")

/-- An instant-preserving conversion to an aware datetime with offset
zero, used by witnesses to instantiate the abstract Berlin
conversion. -/
def toUTCdt (u : Int) : PyDT :=
  ⟨u.ediv 86400000000, u.emod 86400000000, 0⟩

/-- Fixture: the `i`-th of the 101 in-window meetings served by the
ms-filtered search in the pagination counterexample. -/
def pageMeeting (i : Nat) : RawMeeting :=
  ⟨toString i, RawValue.str "0", RawValue.str "1", RawValue.null⟩

/-- Fixture: a CRM whose ms-filtered search matches 101 meetings —
one more than a single page holds. -/
def pageCRM : CRM :=
  ⟨(List.range 101).map pageMeeting, [], []⟩

/-- Fixture: a raw meeting whose start instant is exactly the window
start (epoch instant 0), with an owner present. -/
def startEdgeMeeting : RawMeeting :=
  ⟨"m1", RawValue.str "0", RawValue.str "42", RawValue.null⟩

/-- Fixture: window start 1970-01-01 (wall midnight, instant 0). -/
def winStart : PyDT := ⟨0, 0, 0⟩

/-- Fixture: window end seven days later. -/
def winEnd : PyDT := ⟨7, 0, 0⟩

/-- Fixture: a `now` two days into the window. -/
def winNow : PyDT := ⟨2, 0, 0⟩

/-- Fixture: Monday 2025-12-01, Berlin wall midnight (epoch day
20423). -/
def exWeekStart : PyDT := ⟨20423, 0, 60⟩

/-- Fixture: the following Monday 2025-12-08 (epoch day 20430). -/
def exWeekEnd : PyDT := ⟨20430, 0, 60⟩

/-- Fixture: a grouped mapping with two owners whose groups are each
sorted, the later-starting owner inserted first. -/
def exGrouped : List (String × List Entry) :=
  [("owner-b", [(⟨1, 0, 0⟩, "Jane Doe", "Call")]),
   ("owner-a", [(⟨0, 0, 0⟩, "John Roe", "Demo"), (⟨0, 7200000000, 0⟩, "Ann Poe", "Sync")])]

/-- C4: for every `now`, `week_window` returns the window whose start
is `now` moved back by its weekday index with the time truncated to
midnight; the start always falls on a Monday and the end is exactly
seven wall-clock days (same time of day, day count + 7) after the
start — including when `now` is exactly Monday 00:00 or Sunday
23:59:59. -/
theorem week_window_invariants (now : PyDT) :
    (week_window now).1.days = now.days - pyWeekday now.days ∧
    (week_window now).1.usec = 0 ∧
    pyWeekday (week_window now).1.days = 0 ∧
    (week_window now).2.days = (week_window now).1.days + 7 ∧
    (week_window now).2.usec = 0 := by
  refine ⟨rfl, rfl, ?_, rfl, rfl⟩
  show pyWeekday (now.days - pyWeekday now.days) = 0
  unfold pyWeekday
  have h : now.days - (now.days + 3).emod 7 + 3 = now.days + 3 - (now.days + 3).emod 7 := by
    ring
  rw [h]
  show (now.days + 3 - (now.days + 3) % 7) % 7 = 0
  rw [Int.sub_emod, Int.emod_emod_of_dvd _ (dvd_refl 7), sub_self, Int.zero_emod]

/-- C1 (amended): the fetcher issues one search per strategy
(ms-filtered, then ISO-filtered, then unfiltered) and returns a single
page — at most 100 records — of whichever strategy first yields
results; it never follows pagination. -/
theorem fetch_single_page_only (crm : CRM) :
    ((fetch_meetings_candidates crm).1 = crm.resultsMs.take 100 ∨
     (fetch_meetings_candidates crm).1 = crm.resultsIso.take 100 ∨
     (fetch_meetings_candidates crm).1 = crm.resultsAny.take 100) ∧
    (fetch_meetings_candidates crm).1.length ≤ 100 := by
  have hlen : ∀ l : List RawMeeting, (l.take 100).length ≤ 100 := by
    intro l
    rw [List.length_take]
    omega
  unfold fetch_meetings_candidates meetings_search
  by_cases h1 : (crm.resultsMs.take 100).isEmpty = false
  · rw [if_pos h1]
    exact ⟨Or.inl rfl, hlen _⟩
  · rw [if_neg h1]
    by_cases h2 : (crm.resultsIso.take 100).isEmpty = false
    · rw [if_pos h2]
      exact ⟨Or.inr (Or.inl rfl), hlen _⟩
    · rw [if_neg h2]
      exact ⟨Or.inr (Or.inr rfl), hlen _⟩

/-- C1 counterexample: with 101 meetings matching the ms-filtered
search, the fetch silently returns only the first page of 100 — the
101st matching meeting is absent from the result and no error is
raised. -/
theorem fetch_first_page_cex :
    pageCRM.resultsMs.length = 101 ∧
    (fetch_meetings_candidates pageCRM).1.length = 100 ∧
    pageMeeting 100 ∈ pageCRM.resultsMs ∧
    pageMeeting 100 ∉ (fetch_meetings_candidates pageCRM).1 := by
  decide

/-- C2 counterexample: the code compares the signed value, not its
magnitude, against 10^10 — the value -10^10 (magnitude exactly the
threshold) is multiplied by 1000 and treated as seconds, not as
milliseconds; and the seconds form and milliseconds form of the
instant 5,000,000 s after the epoch normalize to different instants,
because 5·10^9 ms still falls below the threshold. -/
theorem parse_numeric_magnitude_cex :
    (Int.natAbs (-10000000000) ≥ 10000000000) ∧
    parse_hubspot_datetime (RawValue.int (-10000000000)) = some (-10000000000000000) ∧
    ((-10000000000 : Int) * 1000 ≠ -10000000000000000) ∧
    parse_hubspot_datetime (RawValue.int 5000000) = some 5000000000000 ∧
    parse_hubspot_datetime (RawValue.int 5000000000) = some 5000000000000000 ∧
    (5000000000000 : Int) ≠ 5000000000000000 := by
  decide

/-- C2 (amended): an integer `n` is taken as milliseconds exactly when
`n ≥ 10^10` as a signed comparison, and otherwise multiplied by 1000
as seconds, the parse then succeeding whenever the resulting instant
lies in `datetime`'s supported year range; for an instant `s` seconds
after the epoch with `10^7 ≤ s < 10^10`, the seconds form, the
milliseconds form, and an equivalent ISO-8601 string all normalize to
the same instant. -/
theorem parse_numeric_threshold_amended (n s : Int) (str : String) (t : IsoDT)
    (hs1 : 10000000 ≤ s) (hs2 : s < 10000000000)
    (hnum : pyIntOfString str = Option.none)
    (hiso : fromisoformat (replaceZ str) = some t)
    (hinst : t.instantUs = s * 1000000) :
    (10000000000 ≤ n → fromtimestampOK n →
      parse_hubspot_datetime (RawValue.int n) = some (n * 1000)) ∧
    (n < 10000000000 → fromtimestampOK (n * 1000) →
      parse_hubspot_datetime (RawValue.int n) = some (n * 1000000)) ∧
    parse_hubspot_datetime (RawValue.int s) = some (s * 1000000) ∧
    parse_hubspot_datetime (RawValue.int (1000 * s)) = some (s * 1000000) ∧
    parse_hubspot_datetime (RawValue.str str) = some (s * 1000000) := by
  have hne : str ≠ "" := by
    intro h
    subst h
    have h0 : fromisoformat (replaceZ "") = Option.none := rfl
    rw [h0] at hiso
    exact Option.noConfusion hiso
  have hmin : civilToDays 1 1 1 = -719162 := by decide
  have hmax : civilToDays 9999 12 31 = 2932896 := by decide
  have hint : ∀ m : Int, fromtimestampOK (msOf m) →
      parse_hubspot_datetime (RawValue.int m) = some (msOf m * 1000) := by
    intro m hm
    simp [parse_hubspot_datetime, pyInt, hm]
  refine ⟨?_, ?_, ?_, ?_, ?_⟩
  · intro h hOK
    have hms : msOf n = n := by
      unfold msOf
      rw [if_neg (by omega)]
    rw [hint n (by rwa [hms]), hms]
  · intro h hOK
    have hms : msOf n = n * 1000 := by
      unfold msOf
      rw [if_pos h]
    rw [hint n (by rwa [hms]), hms]
    ring_nf
  · have hms : msOf s = s * 1000 := by
      unfold msOf
      rw [if_pos hs2]
    have hOK : fromtimestampOK (msOf s) := by
      rw [hms]
      unfold fromtimestampOK
      rw [hmin, hmax]
      omega
    rw [hint s hOK, hms]
    ring_nf
  · have hms : msOf (1000 * s) = 1000 * s := by
      unfold msOf
      rw [if_neg (by omega)]
    have hOK : fromtimestampOK (msOf (1000 * s)) := by
      rw [hms]
      unfold fromtimestampOK
      rw [hmin, hmax]
      omega
    rw [hint _ hOK, hms]
    ring_nf
  · have hcond : ¬ (RawValue.str str = RawValue.null ∨ RawValue.str str = RawValue.str "") := by
      simp [hne]
    rw [parse_hubspot_datetime, if_neg hcond]
    simp [pyInt, pyStr, hnum, hiso, hinst]

/-- Witness for the amended C2 at the instant 2025-12-08 10:00:00 UTC
(epoch second 1765188000): seconds form, milliseconds form and the
`Z`-suffixed ISO form normalize identically. -/
theorem parse_numeric_threshold_witness :
    parse_hubspot_datetime (RawValue.int 1765188000) = some (1765188000 * 1000000) ∧
    parse_hubspot_datetime (RawValue.int (1000 * 1765188000)) = some (1765188000 * 1000000) ∧
    parse_hubspot_datetime (RawValue.str "2025-12-08T10:00:00Z") = some (1765188000 * 1000000) := by
  have h := parse_numeric_threshold_amended 0 1765188000 "2025-12-08T10:00:00Z"
    ⟨2025, 12, 8, 10, 0, 0, 0, some 0⟩ (by norm_num) (by norm_num) (by decide) (by decide)
    (by decide)
  exact ⟨h.2.2.1, h.2.2.2.1, h.2.2.2.2⟩

theorem joinNL_cons₂ (a b : String) (t : List String) :
    joinNL (a :: b :: t) = a ++ "\n" ++ joinNL (b :: t) :=
  rfl

theorem joinNL_cons_of_ne (a : String) (t : List String) (h : t ≠ []) :
    joinNL (a :: t) = a ++ "\n" ++ joinNL t := by
  cases t with
  | nil => exact absurd rfl h
  | cons b t' => rfl

theorem foldl_append_form {α : Type} (g : α → List String) (l : List α) :
    ∀ acc : List String,
      l.foldl (fun a x => a ++ g x) acc = acc ++ l.foldl (fun a x => a ++ g x) [] := by
  induction l with
  | nil => intro acc; simp
  | cons x t ih =>
    intro acc
    simp only [List.foldl_cons, List.nil_append]
    rw [ih (acc ++ g x), ih (g x), List.append_assoc]

/-- C9: on an empty grouped mapping the formatter returns the header
plus the fixed "no meetings this week" sentence — a non-empty string,
and total (no exception is possible). -/
theorem empty_grouped_message (ws we : PyDT) :
    build_message [] ws we =
      "📅 *Wochenübersicht – Meetings*\n" ++ "🗓️ Zeitraum: " ++ fmtDMY ws ++ " - "
        ++ fmtDMY (subOneSecond we) ++ "\n\n"
        ++ "✅ Diese Woche stehen keine anstehenden Meetings an." ∧
    build_message [] ws we ≠ "" := by
  have h1 : build_message [] ws we =
      "📅 *Wochenübersicht – Meetings*\n" ++ "🗓️ Zeitraum: " ++ fmtDMY ws ++ " - "
        ++ fmtDMY (subOneSecond we) ++ "\n\n"
        ++ "✅ Diese Woche stehen keine anstehenden Meetings an." := rfl
  refine ⟨h1, ?_⟩
  rw [h1]
  intro hcontra
  have hlen := congrArg String.length hcontra
  simp only [String.length_append] at hlen
  have hA : 0 < ("📅 *Wochenübersicht – Meetings*\n" : String).length := by decide
  have h0 : ("" : String).length = 0 := rfl
  rw [h0] at hlen
  omega

set_option maxRecDepth 4000 in
/-- C8 counterexample: at the window 01.12.2025 – 08.12.2025 the
rendered header joins the two dates with a plain hyphen (" - "), not
the en dash (" – ") the claim requires; the en-dash form appears
nowhere in the digest's date line. -/
theorem header_en_dash_cex :
    ("01.12.2025 - 07.12.2025".toList <:+: (build_message [] exWeekStart exWeekEnd).toList) ∧
    ¬ ("01.12.2025 – 07.12.2025".toList <:+: (build_message [] exWeekStart exWeekEnd).toList) := by
  decide

/-- C8 (amended): the digest always begins with the header whose date
range is `DD.MM.YYYY - DD.MM.YYYY` (hyphen separator, not an en dash),
and the displayed end date is `week_end - 1 second` — the window's
last calendar day whenever `week_end` is a midnight. -/
theorem header_separator_amended (grouped : List (String × List Entry)) (ws we : PyDT) :
    (∃ rest, build_message grouped ws we =
      "📅 *Wochenübersicht – Meetings*\n" ++ "🗓️ Zeitraum: " ++ fmtDMY ws ++ " - "
        ++ fmtDMY (subOneSecond we) ++ rest) ∧
    (we.usec = 0 → subOneSecond we = ⟨we.days - 1, 86399000000, we.offMin⟩) := by
  constructor
  · cases grouped with
    | nil =>
      refine ⟨"\n\n" ++ "✅ Diese Woche stehen keine anstehenden Meetings an.", ?_⟩
      show "📅 *Wochenübersicht – Meetings*\n" ++ "🗓️ Zeitraum: " ++ fmtDMY ws ++ " - "
          ++ fmtDMY (subOneSecond we) ++ "\n\n"
          ++ "✅ Diese Woche stehen keine anstehenden Meetings an." = _
      simp [String.append_assoc]
    | cons p ps =>
      have hmerge : ∀ X : String,
          ("📅 *Wochenübersicht – Meetings*" : String) ++ ("\n" ++ X) =
            "📅 *Wochenübersicht – Meetings*\n" ++ X := fun X => rfl
      unfold build_message
      simp only [List.isEmpty_cons, if_false, Bool.false_eq_true]
      rw [foldl_append_form]
      refine ⟨"\n" ++ ("\n" ++ joinNL ((List.foldl
        (fun acc owner => acc ++ ownerBlock (p :: ps) owner) [] (ownersSorted (p :: ps)))
          ++ [closingLine])), ?_⟩
      simp only [List.cons_append, List.nil_append]
      rw [joinNL_cons₂, joinNL_cons_of_ne _ _ (by simp)]
      simp only [String.append_assoc]
      rw [hmerge]
  · intro h
    norm_num [subOneSecond, h]

/-- Witness for the amended C8 at the window 01.12.2025 – 08.12.2025:
the end midnight minus one second lands on the previous calendar day,
and the digest opens with the hyphen-separated date header. -/
theorem header_separator_witness :
    subOneSecond exWeekEnd = ⟨exWeekEnd.days - 1, 86399000000, exWeekEnd.offMin⟩ ∧
    (∃ rest, build_message [] exWeekStart exWeekEnd =
      "📅 *Wochenübersicht – Meetings*\n" ++ "🗓️ Zeitraum: " ++ fmtDMY exWeekStart ++ " - "
        ++ fmtDMY (subOneSecond exWeekEnd) ++ rest) :=
  ⟨(header_separator_amended [] exWeekStart exWeekEnd).2 rfl,
   (header_separator_amended [] exWeekStart exWeekEnd).1⟩

theorem digRun_chars : ∀ l : List Char, digRun l = true → ∀ c ∈ l, c.isDigit = true ∨ c = '_'
  | [], h => by simp [digRun] at h
  | [a], h => by
      intro c hc
      rw [List.mem_singleton] at hc
      subst hc
      exact Or.inl h
  | a :: d :: rest, h => by
      rw [digRun] at h
      rw [Bool.and_eq_true] at h
      intro c hc
      rcases List.mem_cons.mp hc with rfl | hc'
      · exact Or.inl h.1
      · by_cases hd : d = '_'
        · subst hd
          rw [if_pos rfl] at h
          rcases List.mem_cons.mp hc' with rfl | hc''
          · exact Or.inr rfl
          · exact digRun_chars rest h.2 c hc''
        · rw [if_neg hd] at h
          exact digRun_chars (d :: rest) h.2 c hc'

theorem digRun_false_of_bad (l : List Char) (c : Char) (hc : c ∈ l)
    (hd : c.isDigit = false) (hu : c ≠ '_') : digRun l = false := by
  cases h : digRun l with
  | false => rfl
  | true =>
    rcases digRun_chars l h c hc with h1 | h1
    · rw [hd] at h1
      exact absurd h1 (by simp)
    · exact absurd h1 hu

theorem mem_dropWhile_of_mem {p : Char → Bool} :
    ∀ (l : List Char) (c : Char), c ∈ l → p c = false → c ∈ l.dropWhile p := by
  intro l
  induction l with
  | nil => intro c hc _; exact absurd hc (by simp)
  | cons a t ih =>
    intro c hc hp
    by_cases ha : p a = true
    · rw [List.dropWhile_cons_of_pos ha]
      rcases List.mem_cons.mp hc with rfl | hc'
      · rw [hp] at ha; exact absurd ha (by simp)
      · exact ih c hc' hp
    · rw [List.dropWhile_cons_of_neg ha]
      exact hc

theorem mem_pyStripList (l : List Char) (c : Char) (hc : c ∈ l)
    (hw : isPySpace c = false) : c ∈ pyStripList l := by
  unfold pyStripList
  rw [List.mem_reverse]
  apply mem_dropWhile_of_mem _ _ _ hw
  rw [List.mem_reverse]
  exact mem_dropWhile_of_mem _ _ hc hw

theorem pyIntOfString_eq_none (u : String) (c : Char) (hc : c ∈ u.toList)
    (hw : isPySpace c = false) (hd : c.isDigit = false) (hu : c ≠ '_')
    (hp : c ≠ '+') (hm : c ≠ '-') : pyIntOfString u = Option.none := by
  unfold pyIntOfString
  have hcl : c ∈ pyStripList u.toList := mem_pyStripList _ _ hc hw
  generalize hL : pyStripList u.toList = l at hcl
  unfold pyIntCore
  have htail : ∀ s : Char, l.head? = some s → c ≠ s → c ∈ l.tail := by
    intro s hhead hne
    cases l with
    | nil => exact absurd hhead (by simp)
    | cons a t =>
      rw [List.head?_cons, Option.some.injEq] at hhead
      subst hhead
      rcases List.mem_cons.mp hcl with rfl | hct
      · exact absurd rfl hne
      · exact hct
  by_cases h1 : l.head? = some '+'
  · rw [if_pos h1, digRun_false_of_bad _ c (htail _ h1 hp) hd hu]
    rfl
  · rw [if_neg h1]
    by_cases h2 : l.head? = some '-'
    · rw [if_pos h2, digRun_false_of_bad _ c (htail _ h2 hm) hd hu]
      rfl
    · rw [if_neg h2, digRun_false_of_bad _ c hcl hd hu]
      rfl

theorem foldr_charZ_no_z (l : List Char) (h : ∀ c ∈ l, c ≠ 'Z') :
    ∀ acc, l.foldr (fun c acc => charZ c ++ acc) acc = l ++ acc := by
  induction l with
  | nil => intro acc; rfl
  | cons a t ih =>
    intro acc
    rw [List.foldr_cons, ih (fun c hc => h c (List.mem_cons_of_mem a hc))]
    unfold charZ
    rw [if_neg (h a (List.mem_cons_self a t))]
    rfl

theorem replaceZ_append_z (s : String) (h : ∀ c ∈ s.toList, c ≠ 'Z') :
    replaceZ (s ++ "Z") = s ++ "+00:00" := by
  apply String.ext
  show (String.mk _).data = _
  rw [String.data_append]
  show ((s ++ "Z").data.foldr _ []) = _
  rw [String.data_append, List.foldr_append, foldr_charZ_no_z s.data h]
  rfl

theorem replaceZ_no_z (s : String) (h : ∀ c ∈ s.toList, c ≠ 'Z') :
    replaceZ s = s := by
  apply String.ext
  show (s.data.foldr _ []) = _
  rw [foldr_charZ_no_z s.data h, List.append_nil]

/-- C5 counterexample: the value 10^16 parses as an integer (numeric
shape, non-null, non-empty), yet normalization fails — its
milliseconds reading lies outside `datetime`'s supported year range,
`fromtimestamp` raises, and the fall-through ISO parse of the digit
string fails too. -/
theorem parse_numeric_range_cex :
    pyInt (RawValue.int 10000000000000000) = some 10000000000000000 ∧
    RawValue.int 10000000000000000 ≠ RawValue.null ∧
    RawValue.int 10000000000000000 ≠ RawValue.str "" ∧
    ¬ fromtimestampOK (msOf 10000000000000000) ∧
    parse_hubspot_datetime (RawValue.int 10000000000000000) = Option.none := by
  decide

/-- C5 (amended): `parse_hubspot_datetime` fails exactly when the raw
value is null/empty, or every integer reading's instant is outside
`datetime`'s supported range and the value does not match the ISO-8601
shape; a non-numeric ISO-shaped string always succeeds; a trailing `Z`
is parsed identically to `+00:00`; and an offset-naive ISO string is
interpreted as UTC (conversion to the configured local timezone is
instant-preserving and the model works at the instant level). -/
theorem parse_failure_characterization :
    (∀ v : RawValue, parse_hubspot_datetime v = Option.none ↔
      (v = RawValue.null ∨ v = RawValue.str "" ∨
        ((∀ n, pyInt v = some n → ¬ fromtimestampOK (msOf n)) ∧
          isIsoShape (pyStr v) = false))) ∧
    (∀ s : String, (∀ c ∈ s.toList, c ≠ 'Z') →
      parse_hubspot_datetime (RawValue.str (s ++ "Z")) =
        parse_hubspot_datetime (RawValue.str (s ++ "+00:00"))) ∧
    (∀ (s : String) (t : IsoDT), pyIntOfString s = Option.none →
      fromisoformat (replaceZ s) = some t → t.offMin = Option.none →
      parse_hubspot_datetime (RawValue.str s) =
        some (IsoDT.instantUs { t with offMin := some 0 })) ∧
    (∀ s : String, pyIntOfString s = Option.none → isIsoShape s = true →
      (parse_hubspot_datetime (RawValue.str s)).isSome = true) := by
  have hne_of_append : ∀ (s : String) (a : String), a.length > 0 → s ++ a ≠ "" := by
    intro s a ha hcontra
    have := congrArg String.length hcontra
    rw [String.length_append] at this
    have h0 : ("" : String).length = 0 := rfl
    rw [h0] at this
    omega
  have hsome : ∀ (v : RawValue) (m : Int), v ≠ RawValue.null → v ≠ RawValue.str "" →
      pyInt v = some m →
      parse_hubspot_datetime v =
        (if fromtimestampOK (msOf m) then some (msOf m * 1000)
         else (fromisoformat (replaceZ (pyStr v))).map IsoDT.instantUs) := by
    intro v m h1 h2 hp
    rw [parse_hubspot_datetime, if_neg (by simp [h1, h2]), hp]
  have hiff : ∀ (v : RawValue) (m : Int), v ≠ RawValue.null → v ≠ RawValue.str "" →
      pyInt v = some m →
      (parse_hubspot_datetime v = Option.none ↔
        (v = RawValue.null ∨ v = RawValue.str "" ∨
          ((∀ n, pyInt v = some n → ¬ fromtimestampOK (msOf n)) ∧
            isIsoShape (pyStr v) = false))) := by
    intro v m h1 h2 hp
    rw [hsome v m h1 h2 hp]
    by_cases hOK : fromtimestampOK (msOf m)
    · rw [if_pos hOK]
      constructor
      · intro h
        exact Option.noConfusion h
      · rintro (h | h | ⟨hall, _⟩)
        · exact absurd h h1
        · exact absurd h h2
        · exact absurd hOK (hall m hp)
    · rw [if_neg hOK, Option.map_eq_none']
      constructor
      · intro h
        refine Or.inr (Or.inr ⟨?_, ?_⟩)
        · intro n hn
          rw [hp, Option.some.injEq] at hn
          rw [← hn]
          exact hOK
        · unfold isIsoShape
          rw [h]
          rfl
      · rintro (h | h | ⟨_, hiso⟩)
        · exact absurd h h1
        · exact absurd h h2
        · unfold isIsoShape at hiso
          cases hfi : fromisoformat (replaceZ (pyStr v)) with
          | none => rfl
          | some t =>
            rw [hfi] at hiso
            exact absurd hiso (by simp)
  refine ⟨?_, ?_, ?_, ?_⟩
  · intro v
    cases v with
    | null => simp [parse_hubspot_datetime]
    | int n => exact hiff (RawValue.int n) n (by simp) (by simp) rfl
    | str s =>
      by_cases hs : s = ""
      · subst hs
        simp [parse_hubspot_datetime]
      · cases hp : pyIntOfString s with
        | some n =>
          exact hiff (RawValue.str s) n (by simp) (by simp [hs])
            (show pyIntOfString s = some n from hp)
        | none =>
          have hv : parse_hubspot_datetime (RawValue.str s) =
              (fromisoformat (replaceZ s)).map IsoDT.instantUs := by
            rw [parse_hubspot_datetime, if_neg (by simp [hs]),
              show pyInt (RawValue.str s) = Option.none from hp]
            rfl
          rw [hv, Option.map_eq_none']
          constructor
          · intro h
            refine Or.inr (Or.inr ⟨?_, ?_⟩)
            · intro n hn
              rw [show pyInt (RawValue.str s) = pyIntOfString s from rfl, hp] at hn
              exact absurd hn (by simp)
            · unfold isIsoShape
              show (fromisoformat (replaceZ s)).isSome = false
              rw [h]
              rfl
          · rintro (h | h | ⟨_, hiso⟩)
            · exact absurd h (by simp)
            · exact absurd h (by simp [hs])
            · unfold isIsoShape at hiso
              cases hfi : fromisoformat (replaceZ s) with
              | none => rfl
              | some t =>
                rw [show pyStr (RawValue.str s) = s from rfl, hfi] at hiso
                exact absurd hiso (by simp)
  · intro s hZ
    have h1 : pyIntOfString (s ++ "Z") = Option.none := by
      apply pyIntOfString_eq_none _ 'Z'
      · show 'Z' ∈ (s ++ "Z").data
        rw [String.data_append]
        exact List.mem_append_right _ (by decide)
      all_goals decide
    have h2 : pyIntOfString (s ++ "+00:00") = Option.none := by
      apply pyIntOfString_eq_none _ ':'
      · show ':' ∈ (s ++ "+00:00").data
        rw [String.data_append]
        exact List.mem_append_right _ (by decide)
      all_goals decide
    have h3 := replaceZ_append_z s hZ
    have h4 : replaceZ (s ++ "+00:00") = s ++ "+00:00" := by
      apply replaceZ_no_z
      intro c hc
      have : c ∈ s.data ∨ c ∈ ("+00:00" : String).data := by
        rw [← List.mem_append, ← String.data_append]
        exact hc
      rcases this with h | h
      · exact hZ c h
      · intro hcontra
        subst hcontra
        exact absurd h (by decide)
    have h5 : ¬ (RawValue.str (s ++ "Z") = RawValue.null ∨
        RawValue.str (s ++ "Z") = RawValue.str "") := by
      simp [hne_of_append s "Z" (by decide)]
    have h6 : ¬ (RawValue.str (s ++ "+00:00") = RawValue.null ∨
        RawValue.str (s ++ "+00:00") = RawValue.str "") := by
      simp [hne_of_append s "+00:00" (by decide)]
    rw [parse_hubspot_datetime, parse_hubspot_datetime, if_neg h5, if_neg h6,
      show pyInt (RawValue.str (s ++ "Z")) = Option.none from h1,
      show pyInt (RawValue.str (s ++ "+00:00")) = Option.none from h2]
    show (fromisoformat (replaceZ (s ++ "Z"))).map IsoDT.instantUs =
      (fromisoformat (replaceZ (s ++ "+00:00"))).map IsoDT.instantUs
    rw [h3, h4]
  · intro s t hnum hiso hoff
    have hs : s ≠ "" := by
      intro h
      subst h
      have h0 : fromisoformat (replaceZ "") = Option.none := rfl
      rw [h0] at hiso
      exact Option.noConfusion hiso
    simp only [parse_hubspot_datetime, pyInt, pyStr, hnum, hiso]
    rw [if_neg (by simp [hs])]
    show some t.instantUs = _
    unfold IsoDT.instantUs
    rw [hoff]
    rfl
  · intro s hnum hiso
    by_cases hs : s = ""
    · subst hs
      exact absurd hiso (by decide)
    · unfold isIsoShape at hiso
      rw [Option.isSome_iff_exists] at hiso
      obtain ⟨t, ht⟩ := hiso
      simp only [parse_hubspot_datetime, pyInt, pyStr, hnum, ht]
      rw [if_neg (by simp [hs])]
      rfl

/-- Witness for C5: the `Z`-suffixed and `+00:00`-suffixed forms of
the same ISO timestamp parse identically. -/
theorem parse_failure_witness :
    parse_hubspot_datetime (RawValue.str ("2025-12-08T10:00:00" ++ "Z")) =
      parse_hubspot_datetime (RawValue.str ("2025-12-08T10:00:00" ++ "+00:00")) :=
  parse_failure_characterization.2.1 "2025-12-08T10:00:00" (by decide)

/-- C3 (amended): main's filter accepts a record exactly when its
start value and owner are truthy, the timestamp parses, and the parsed
instant lies in `[max(week_start, now), week_end)`: a meeting starting
exactly at `window.end` is always excluded, while one starting exactly
at `window.start` is included only when the run happens no later than
the window start (`now ≤ window.start`). -/
theorem window_membership_amended (toBerlin : Int → PyDT)
    (htb : ∀ u, (toBerlin u).instantUs = u) (ws we now : PyDT) (m : RawMeeting) :
    ((truthy m.hs_meeting_start_time = false ∨ truthy m.hubspot_owner_id = false ∨
        parse_hubspot_datetime m.hs_meeting_start_time = Option.none) →
      acceptMeeting toBerlin ws we now m = Option.none) ∧
    (∀ t, parse_hubspot_datetime m.hs_meeting_start_time = some t →
      truthy m.hs_meeting_start_time = true → truthy m.hubspot_owner_id = true →
      (((acceptMeeting toBerlin ws we now m).isSome = true ↔
          (ws.instantUs ≤ t ∧ t < we.instantUs ∧ now.instantUs ≤ t)) ∧
        (t = we.instantUs → acceptMeeting toBerlin ws we now m = Option.none) ∧
        (t = ws.instantUs → ws.instantUs < we.instantUs →
          ((acceptMeeting toBerlin ws we now m).isSome = true ↔
            now.instantUs ≤ ws.instantUs)))) := by
  constructor
  · intro h
    unfold acceptMeeting
    rcases h with h | h | h
    · rw [h]
      simp
    · rw [h]
      simp
    · by_cases hb : (truthy m.hs_meeting_start_time && truthy m.hubspot_owner_id) = true
      · rw [if_pos hb, h]
      · rw [if_neg hb]
  · intro t hparse h1 h2
    have hacc : acceptMeeting toBerlin ws we now m =
        if (ws.instantUs ≤ t ∧ t < we.instantUs) ∧ ¬ t < now.instantUs then
          some ⟨m.id, pyStr m.hubspot_owner_id, toBerlin t, pyTitle m.hs_meeting_title⟩
        else Option.none := by
      unfold acceptMeeting
      rw [if_pos (by rw [h1, h2]; rfl), hparse]
      simp only [htb]
    refine ⟨?_, ?_, ?_⟩
    · rw [hacc]
      by_cases hc : (ws.instantUs ≤ t ∧ t < we.instantUs) ∧ ¬ t < now.instantUs
      · rw [if_pos hc]
        simp only [Option.isSome_some, true_iff]
        omega
      · rw [if_neg hc]
        simp only [Option.isSome_none, Bool.false_eq_true, false_iff]
        omega
    · intro h
      have hcond : ¬ ((ws.instantUs ≤ t ∧ t < we.instantUs) ∧ ¬ t < now.instantUs) := by
        omega
      rw [hacc, if_neg hcond]
    · intro h hwin
      rw [hacc]
      by_cases hc : (ws.instantUs ≤ t ∧ t < we.instantUs) ∧ ¬ t < now.instantUs
      · rw [if_pos hc]
        simp only [Option.isSome_some, true_iff]
        omega
      · rw [if_neg hc]
        simp only [Option.isSome_none, Bool.false_eq_true, false_iff]
        omega

/-- C3 counterexample: a valid meeting starting exactly at
`window.start` (instant 0) with a truthy owner is dropped from the
candidate set when the run happens mid-week (`now` two days in),
because of the additional `dt < now` filter. -/
theorem window_start_excluded_cex :
    truthy startEdgeMeeting.hs_meeting_start_time = true ∧
    truthy startEdgeMeeting.hubspot_owner_id = true ∧
    parse_hubspot_datetime startEdgeMeeting.hs_meeting_start_time = some winStart.instantUs ∧
    winStart.instantUs < winNow.instantUs ∧
    localFilter toUTCdt winStart winEnd winNow [startEdgeMeeting] = [] := by
  decide

/-- Witness for the amended C3: run exactly at the window start, the
same meeting is accepted. -/
theorem window_membership_witness :
    (acceptMeeting toUTCdt winStart winEnd winStart startEdgeMeeting).isSome = true := by
  have htb : ∀ u : Int, (toUTCdt u).instantUs = u := by
    intro u
    show u / 86400000000 * 86400000000 + u % 86400000000 - 0 * 60000000 = u
    omega
  have h := (window_membership_amended toUTCdt htb winStart winEnd winStart
    startEdgeMeeting).2 0 (by decide) (by decide) (by decide)
  exact h.1.mpr (by decide)

theorem foldl_groupStep_filter (assoc : String → Option (List String))
    (contacts : List (String × String)) :
    ∀ (cands : List Candidate) (g : List (String × List Entry)),
      cands.foldl (groupStep assoc contacts) g =
        (cands.filter fun c => !(cidsOf assoc c.id).isEmpty).foldl
          (groupStep assoc contacts) g := by
  intro cands
  induction cands with
  | nil => intro g; rfl
  | cons c t ih =>
    intro g
    rw [List.foldl_cons, List.filter_cons]
    cases hc : cidsOf assoc c.id with
    | nil =>
      have hstep : groupStep assoc contacts g c = g := by
        unfold groupStep
        rw [hc]
      rw [if_neg (by simp), hstep]
      exact ih g
    | cons cid r =>
      rw [if_pos (by simp), List.foldl_cons]
      exact ih _

theorem totalEntries_appendGroup (g : List (String × List Entry)) (o : String) (e : Entry) :
    totalEntries (appendGroup g o e) = totalEntries g + 1 := by
  induction g with
  | nil => rfl
  | cons p rest ih =>
    obtain ⟨k, es⟩ := p
    unfold appendGroup
    by_cases h : k = o
    · rw [if_pos h]
      simp [totalEntries, List.length_append]
      omega
    · rw [if_neg h]
      simp only [totalEntries, List.map_cons, List.sum_cons] at ih ⊢
      omega

theorem totalEntries_foldl (assoc : String → Option (List String))
    (contacts : List (String × String)) :
    ∀ (cands : List Candidate) (g : List (String × List Entry)),
      totalEntries (cands.foldl (groupStep assoc contacts) g) =
        totalEntries g + (cands.filter fun c => !(cidsOf assoc c.id).isEmpty).length := by
  intro cands
  induction cands with
  | nil => intro g; simp
  | cons c t ih =>
    intro g
    rw [List.foldl_cons, List.filter_cons]
    cases hc : cidsOf assoc c.id with
    | nil =>
      have hstep : groupStep assoc contacts g c = g := by
        unfold groupStep
        rw [hc]
      rw [if_neg (by simp), hstep]
      exact ih g
    | cons cid r =>
      have hstep : groupStep assoc contacts g c =
          appendGroup g c.owner
            (c.dt, (alookup contacts cid).getD ("Contact " ++ cid), c.title) := by
        unfold groupStep
        rw [hc]
      rw [if_pos (by simp), hstep, ih, totalEntries_appendGroup, List.length_cons]
      omega

/-- C6: the grouping stage is insensitive to candidates whose
association lookup failed or returned no contacts — removing them all
leaves the grouped output unchanged (so a contactless meeting never
appears in any owner group), every contact-bearing candidate
contributes exactly one entry (so one failure never aborts the
others), and an association-lookup failure is recorded exactly as "no
contacts". -/
theorem grouping_drops_only_contactless (assoc : String → Option (List String))
    (contacts : List (String × String)) (cands : List Candidate) :
    buildGrouped assoc contacts cands =
      buildGrouped assoc contacts (cands.filter fun c => !(cidsOf assoc c.id).isEmpty) ∧
    totalEntries (buildGrouped assoc contacts cands) =
      (cands.filter fun c => !(cidsOf assoc c.id).isEmpty).length ∧
    (∀ mid, assoc mid = Option.none → cidsOf assoc mid = []) := by
  refine ⟨?_, ?_, ?_⟩
  · exact foldl_groupStep_filter assoc contacts cands []
  · have h := totalEntries_foldl assoc contacts cands []
    rw [show totalEntries ([] : List (String × List Entry)) = 0 from rfl, Nat.zero_add] at h
    exact h
  · intro mid h
    unfold cidsOf
    rw [h]
    rfl

/-- Witness for C6: a failing association oracle yields the empty
contact list for a concrete meeting id. -/
theorem grouping_drops_witness :
    cidsOf (fun _ => Option.none) "meeting-7" = [] :=
  (grouping_drops_only_contactless (fun _ => Option.none) [] []).2.2 "meeting-7" rfl

theorem pyStripList_space_cons (l : List Char) :
    pyStripList (' ' :: l) = pyStripList l := by
  unfold pyStripList
  rw [List.dropWhile_cons_of_pos (by decide)]

theorem pyStripList_append_space (l : List Char) :
    pyStripList (l ++ [' ']) = pyStripList l := by
  unfold pyStripList
  rw [List.dropWhile_append]
  by_cases h : (l.dropWhile isPySpace).isEmpty = true
  · rw [if_pos h]
    have h2 : l.dropWhile isPySpace = [] := by rwa [List.isEmpty_iff] at h
    rw [h2]
    rfl
  · rw [if_neg h, List.reverse_append]
    show (List.dropWhile isPySpace (' ' :: (l.dropWhile isPySpace).reverse)).reverse = _
    rw [List.dropWhile_cons_of_pos (by decide)]

theorem pyStrip_space_append (s : String) : pyStrip (" " ++ s) = pyStrip s := by
  have h : (" " ++ s).data = ' ' :: s.data := by
    rw [String.data_append]
    rfl
  show String.mk (pyStripList (" " ++ s).data) = String.mk (pyStripList s.data)
  rw [h, pyStripList_space_cons]

theorem pyStrip_append_space (s : String) : pyStrip (s ++ " ") = pyStrip s := by
  have h : (s ++ " ").data = s.data ++ [' '] := by
    rw [String.data_append]
  show String.mk (pyStripList (s ++ " ").data) = String.mk (pyStripList s.data)
  rw [h, pyStripList_append_space]

theorem entriesOf_appendGroup (g : List (String × List Entry)) (ow o : String) (e : Entry) :
    entriesOf (appendGroup g ow e) o = entriesOf g o ++ (if ow = o then [e] else []) := by
  induction g with
  | nil =>
    by_cases h : ow = o <;> simp [appendGroup, entriesOf, alookup, h]
  | cons p rest ih =>
    obtain ⟨k, es⟩ := p
    unfold appendGroup
    by_cases h1 : k = ow
    · subst h1
      rw [if_pos rfl]
      by_cases h2 : k = o
      · subst h2
        simp [entriesOf, alookup]
      · simp [entriesOf, alookup, h2]
    · rw [if_neg h1]
      by_cases h2 : k = o
      · have how : ¬ ow = o := fun hcontra => h1 (h2.trans hcontra.symm)
        simp [entriesOf, alookup, h2, how]
      · have hLHS : entriesOf ((k, es) :: appendGroup rest ow e) o =
            entriesOf (appendGroup rest ow e) o := by
          simp [entriesOf, alookup, h2]
        have hRHS : entriesOf ((k, es) :: rest) o = entriesOf rest o := by
          simp [entriesOf, alookup, h2]
        rw [hLHS, hRHS, ih]

theorem entriesOf_foldl_mono (assoc : String → Option (List String))
    (contacts : List (String × String)) :
    ∀ (cands : List Candidate) (g : List (String × List Entry)) (o : String) (x : Entry),
      x ∈ entriesOf g o →
      x ∈ entriesOf (cands.foldl (groupStep assoc contacts) g) o := by
  intro cands
  induction cands with
  | nil => intro g o x hx; exact hx
  | cons c t ih =>
    intro g o x hx
    rw [List.foldl_cons]
    apply ih
    unfold groupStep
    cases hc : cidsOf assoc c.id with
    | nil => exact hx
    | cons cid r =>
      rw [entriesOf_appendGroup]
      exact List.mem_append_left _ hx

/-- C7: the display name is `firstname + " " + lastname` trimmed,
falling back to the email when that is empty, falling back to
`"Contact " + contactId` (the code's `" ".join(filter(None, ...))`
chain is extensionally that formula); and a candidate whose first
contact id has no directory record still lands in its owner's group,
carrying the placeholder name. -/
theorem display_name_and_placeholder :
    (∀ (p : ContactProps) (cid : String), displayName p cid = specDisplayName p cid) ∧
    (∀ (assoc : String → Option (List String)) (contacts : List (String × String))
        (cands : List Candidate) (c : Candidate) (cid : String) (rest : List String),
      c ∈ cands → cidsOf assoc c.id = cid :: rest → alookup contacts cid = Option.none →
      (c.dt, "Contact " ++ cid, c.title) ∈ entriesOf (buildGrouped assoc contacts cands) c.owner) := by
  constructor
  · intro p cid
    obtain ⟨f, l, e⟩ := p
    have hname : pyStrip (joinSpace (pyFilterTruthy [f, l])) =
        pyStrip (f.getD "" ++ " " ++ l.getD "") := by
      cases f with
      | none =>
        cases l with
        | none => decide
        | some ls =>
          by_cases hl : ls = ""
          · subst hl; decide
          · simp only [pyFilterTruthy, List.filterMap, hl, if_neg hl, Option.getD]
            show pyStrip (joinSpace [ls]) = pyStrip ("" ++ " " ++ ls)
            show pyStrip ls = pyStrip (" " ++ ls)
            exact (pyStrip_space_append ls).symm
      | some fs =>
        by_cases hf : fs = ""
        · subst hf
          cases l with
          | none => decide
          | some ls =>
            by_cases hl : ls = ""
            · subst hl; decide
            · show pyStrip (joinSpace (pyFilterTruthy [some "", some ls])) = _
              have hfl : pyFilterTruthy [some "", some ls] = [ls] := by
                simp [pyFilterTruthy, hl]
              rw [hfl]
              show pyStrip ls = pyStrip ("" ++ " " ++ ls)
              show pyStrip ls = pyStrip (" " ++ ls)
              exact (pyStrip_space_append ls).symm
        · cases l with
          | none =>
            have hfl : pyFilterTruthy [some fs, Option.none] = [fs] := by
              simp [pyFilterTruthy, hf]
            rw [hfl]
            show pyStrip fs = pyStrip (fs ++ " " ++ "")
            rw [String.append_empty]
            exact (pyStrip_append_space fs).symm
          | some ls =>
            by_cases hl : ls = ""
            · subst hl
              have hfl : pyFilterTruthy [some fs, some ""] = [fs] := by
                simp [pyFilterTruthy, hf]
              rw [hfl]
              show pyStrip fs = pyStrip (fs ++ " " ++ "")
              rw [String.append_empty]
              exact (pyStrip_append_space fs).symm
            · have hfl : pyFilterTruthy [some fs, some ls] = [fs, ls] := by
                simp [pyFilterTruthy, hf, hl]
              rw [hfl]
              rfl
    unfold displayName specDisplayName
    rw [hname]
  · intro assoc contacts cands c cid rest hmem hcids hlook
    obtain ⟨l1, l2, rfl⟩ := List.append_of_mem hmem
    unfold buildGrouped
    rw [List.foldl_append, List.foldl_cons]
    apply entriesOf_foldl_mono
    have hstep : groupStep assoc contacts (l1.foldl (groupStep assoc contacts) []) c =
        appendGroup (l1.foldl (groupStep assoc contacts) []) c.owner
          (c.dt, "Contact " ++ cid, c.title) := by
      unfold groupStep
      rw [hcids]
      simp [hlook]
    rw [hstep, entriesOf_appendGroup, if_pos rfl]
    exact List.mem_append_right _ (by simp)

/-- Witness for C7: a first contact id with no directory entry keeps
its meeting in the digest under the placeholder name. -/
theorem display_name_witness :
    ((⟨0, 0, 0⟩ : PyDT), "Contact " ++ "c9", "T") ∈
      entriesOf (buildGrouped (fun _ => some ["c9"]) []
        [⟨"m1", "o1", ⟨0, 0, 0⟩, "T"⟩]) "o1" :=
  display_name_and_placeholder.2 (fun _ => some ["c9"]) []
    [⟨"m1", "o1", ⟨0, 0, 0⟩, "T"⟩] ⟨"m1", "o1", ⟨0, 0, 0⟩, "T"⟩ "c9" []
    (List.mem_singleton_self _) rfl rfl

theorem alookup_eq_of_mem_nodup :
    ∀ (g : List (String × List Entry)) (o : String) (es : List Entry),
      (g.map Prod.fst).Nodup → (o, es) ∈ g → alookup g o = some es := by
  intro g
  induction g with
  | nil => intro o es _ hmem; exact absurd hmem (by simp)
  | cons p rest ih =>
    intro o es hnd hmem
    obtain ⟨k, vs⟩ := p
    rw [List.map_cons, List.nodup_cons] at hnd
    rcases List.mem_cons.mp hmem with heq | hmem'
    · rw [Prod.mk.injEq] at heq
      obtain ⟨rfl, rfl⟩ := heq
      unfold alookup
      rw [if_pos rfl]
    · have ho : o ∈ List.map Prod.fst rest := List.mem_map_of_mem Prod.fst hmem'
      have hk : ¬ k = o := fun hcontra => hnd.1 (by rw [hcontra]; exact ho)
      unfold alookup
      rw [if_neg hk]
      exact ih o es hnd.2 hmem'

/-- C10: when every owner's sequence is non-empty and sorted ascending
by start instant, the formatter lays the owner groups out in ascending
order of each group's first (earliest) meeting instant — the
deterministic rule `sorted(grouped.keys(), key=grouped[o][0][0])`
picks. -/
theorem owners_sorted_by_earliest (g : List (String × List Entry))
    (_hne : ∀ p ∈ g, p.2 ≠ [])
    (hsorted : ∀ p ∈ g, List.Sorted (fun e1 e2 : Entry => e1.1.instantUs ≤ e2.1.instantUs) p.2)
    (hkeys : (g.map Prod.fst).Nodup) :
    List.Sorted (· ≤ ·) ((ownersSorted g).map (groupKey g)) ∧
    (∀ p ∈ g, ∀ e ∈ p.2, groupKey g p.1 ≤ e.1.instantUs) := by
  constructor
  · haveI : IsTotal String (fun o1 o2 => groupKey g o1 ≤ groupKey g o2) :=
      ⟨fun a b => le_total _ _⟩
    haveI : IsTrans String (fun o1 o2 => groupKey g o1 ≤ groupKey g o2) :=
      ⟨fun _ _ _ hab hbc => le_trans hab hbc⟩
    have h := List.sorted_insertionSort
      (fun o1 o2 => groupKey g o1 ≤ groupKey g o2) (g.map Prod.fst)
    show List.Pairwise _ _
    rw [List.pairwise_map]
    exact h
  · intro p hp e he
    obtain ⟨o, es⟩ := p
    have halook : alookup g o = some es := alookup_eq_of_mem_nodup g o es hkeys hp
    cases es with
    | nil => exact absurd he (by simp)
    | cons e0 tl =>
      have hkey : groupKey g o = e0.1.instantUs := by
        unfold groupKey
        rw [halook]
      rw [hkey]
      rcases List.mem_cons.mp he with rfl | he'
      · exact le_refl _
      · have hs := hsorted (o, e0 :: tl) hp
        exact (List.pairwise_cons.mp hs).1 e he'

/-- Witness for C10 on a two-owner grouped mapping inserted out of
order: the rendered owner order carries ascending first-meeting
instants. -/
theorem owners_sorted_witness :
    List.Sorted (· ≤ ·) ((ownersSorted exGrouped).map (groupKey exGrouped)) :=
  (owners_sorted_by_earliest exGrouped (by decide) (by decide) (by decide)).1

end WMB
